import Mathlib

/-!
Shallow embedding of the `ytq` persistent store and its command layer
(`src/models.rs`, `src/store.rs`, `src/commands.rs`), with theorems checking
the natural-language specification against the code.

Modelling conventions:
- `chrono::DateTime<Utc>` is modelled as `Int` (seconds); `Duration::num_seconds`
  of `t1.signed_duration_since t0` is `t1 - t0`.
- A serialized JSON document on disk is modelled by `JsonDoc α`: either a
  document that `serde_json::from_str` parses to a value of `α`, or garbage it
  rejects.  A file that may be absent is `Option (JsonDoc α)` (`none` =
  `fs::read_to_string` fails).
- `HashMap<String, VideoMeta>` is modelled extensionally as
  `String → Option VideoMeta`; `HashMap::insert` is pointwise update.
- File-system and lock effects are reified as explicit traces (`FsOp`,
  `LockOp`) so that properties about what the code writes, and when it
  releases the lock, are statable.
-/

namespace Ytq

/-- Mode from `models.rs`: `Queue` is FIFO, `Stack` is LIFO. -/
inductive Mode
  | Queue
  | Stack
deriving DecidableEq

/-- Video from `models.rs`: `{ id, url, added_at }`. -/
structure Video where
  id : String
  url : String
  added_at : Int
deriving DecidableEq

/-- Action from `models.rs`. -/
inductive Action
  | Queued
  | Watched
  | Skipped
deriving DecidableEq

/-- Event from `models.rs`: `{ timestamp, action, video_id, time_in_queue_sec }`. -/
structure Event where
  timestamp : Int
  action : Action
  video_id : String
  time_in_queue_sec : Option Int
deriving DecidableEq

/-- VideoMeta from `models.rs`. -/
structure VideoMeta where
  id : String
  title : String
  channel : String
  channel_id : String
  duration : String
  duration_seconds : Nat
  published_at : Int
  category_id : String
  tags : List String
  fetched_at : Int
  unavailable : Bool
deriving DecidableEq

/-- A JSON document on disk: either one that parses to a value of `α`, or
garbage that `serde_json::from_str` rejects (including a truncated or empty
file). -/
inductive JsonDoc (α : Type)
  | parsable (v : α)
  | garbage (raw : String)
deriving DecidableEq

/-- Metadata cache contents, `HashMap<String, VideoMeta>` viewed extensionally. -/
def MetaMap : Type := String → Option VideoMeta

/-- The empty metadata map (`HashMap::new`). -/
def MetaMap.empty : MetaMap := fun _ => none

/-- `HashMap::insert`: set key `k` to `v`, leaving other keys unchanged. -/
def MetaMap.insert (m : MetaMap) (k : String) (v : VideoMeta) : MetaMap :=
  fun q => if q = k then some v else m q

/-! ## store.rs: load/save of the queue snapshot -/

/-- `store::load_queue` (`store.rs:69`): missing file or unparsable JSON is an
empty queue (`unwrap_or_default`), otherwise the parsed array. -/
def load_queue : Option (JsonDoc (List Video)) → List Video
  | some (.parsable q) => q
  | some (.garbage _) => []
  | none => []

/-- File-system operations observable by another process: a whole-file write
(`fs::write`, which truncates then writes in place) and a rename. -/
inductive FsOp
  | write_file (path : String) (contents : JsonDoc (List Video))
  | rename (src : String) (dst : String)
deriving DecidableEq

/-- `store::save_queue` (`store.rs:77`): serializes the queue and calls
`fs::write(path, data)` — a single direct in-place write of the final path;
no temporary file and no rename appears in the source. -/
def save_queue_ops (path : String) (queue : List Video) : List FsOp :=
  [.write_file path (.parsable queue)]

/-- The on-disk contents after `save_queue`: the serialized full array. -/
def save_queue (queue : List Video) : Option (JsonDoc (List Video)) :=
  some (.parsable queue)

/-- A write trace is an atomic replace of `path` when it writes a temporary
file and renames it onto `path` (the shape the spec prescribes). -/
def IsAtomicReplace (ops : List FsOp) (path : String) : Prop :=
  ∃ tmp contents, tmp ≠ path ∧
    ops = [.write_file tmp contents, .rename tmp path]

/-! ## store.rs: with_queue -/

/-- Lock-file operations, in the order the process performs them. -/
inductive LockOp
  | acquire_exclusive
  | acquire_shared
  | release
deriving DecidableEq

/-- `store::with_queue` (`store.rs:17`): acquire the exclusive lock, load the
snapshot, run the transform, and only if it succeeds persist the new queue;
on a transform error the `?` operator returns before `save_queue` runs, and
the lock guard is dropped on both paths.  Result: the new on-disk queue file,
the transform result, and the lock trace. -/
def with_queue {T : Type} (disk : Option (JsonDoc (List Video)))
    (f : List Video → Except String (List Video × T)) :
    Option (JsonDoc (List Video)) × Except String T × List LockOp :=
  let queue := load_queue disk
  match f queue with
  | .error e => (disk, .error e, [.acquire_exclusive, .release])
  | .ok (q2, t) => (save_queue q2, .ok t, [.acquire_exclusive, .release])

/-! ## commands.rs: add, next, remove -/

/-- The not-found domain error produced by `anyhow!` in `commands.rs:77` and
`commands.rs:129`. -/
def not_found_error (id : String) : String :=
  "video with ID " ++ id ++ " not found in queue"

/-- `queue.iter().position(|v| v.id == id)` followed by `queue.remove(idx)`
(`commands.rs:74` / `commands.rs:126`): remove the first video whose id equals
`id`, returning it and the remaining queue, or `none` when absent. -/
def remove_by_id (id : String) : List Video → Option (Video × List Video)
  | [] => none
  | v :: rest =>
    if v.id = id then some (v, rest)
    else
      match remove_by_id id rest with
      | some (w, rest2) => some (w, v :: rest2)
      | none => none

/-- The closure passed to `with_queue` by `commands::next` (`commands.rs:66`):
empty queue short-circuits to `Ok(None)`; a target id is located by equality
(absence is an error); otherwise mode-based selection removes `queue.remove(0)`
under `Mode::Queue` and `queue.pop()` under `Mode::Stack`. -/
def next_transform (mode : Mode) (target_id : Option String) (queue : List Video) :
    Except String (Option Video × List Video) :=
  match queue with
  | [] => .ok (none, [])
  | v :: rest =>
    match target_id with
    | some id =>
      match remove_by_id id (v :: rest) with
      | none => .error (not_found_error id)
      | some (w, q2) => .ok (some w, q2)
    | none =>
      match mode with
      | .Queue => .ok (some v, rest)
      | .Stack =>
        .ok (some ((v :: rest).getLast (List.cons_ne_nil v rest)),
             (v :: rest).dropLast)

/-- The closure passed to `with_queue` by `commands::remove`
(`commands.rs:120`): empty queue short-circuits to `Ok(None)`; otherwise the
target id is located by equality and absence is an error. -/
def remove_transform (target_id : String) (queue : List Video) :
    Except String (Option Video × List Video) :=
  match queue with
  | [] => .ok (none, [])
  | v :: rest =>
    match remove_by_id target_id (v :: rest) with
    | none => .error (not_found_error target_id)
    | some (w, q2) => .ok (some w, q2)

/-- The closure passed to `with_queue` by `commands::add` (`commands.rs:19`):
if some queued video already has the (normalized) id, return `false` without
touching the queue; otherwise push the new video at the back and return
`true`. -/
def add_transform (id url : String) (now : Int) (queue : List Video) :
    List Video × Bool :=
  if queue.any (fun v => v.id = id) then (queue, false)
  else (queue ++ [{ id := id, url := url, added_at := now }], true)

/-- `commands::add` after the store call (`commands.rs:35`): a `Queued` event
with `time_in_queue_sec = None` is logged exactly when the video was actually
inserted.  Returns the new queue and the list of logged events. -/
def add_cmd (id url : String) (now : Int) (queue : List Video) :
    List Video × List Event :=
  match add_transform id url now queue with
  | (q2, true) =>
    (q2, [{ timestamp := now, action := .Queued, video_id := id,
            time_in_queue_sec := none }])
  | (q2, false) => (q2, [])

/-- `commands::next` after the store call (`commands.rs:90`): when a video was
consumed, a `Watched` event is logged whose `time_in_queue_sec` is
`Utc::now().signed_duration_since(video.added_at)` in whole seconds.  Returns
the new queue, the consumed video, and the logged events. -/
def next_cmd (mode : Mode) (target_id : Option String) (queue : List Video)
    (now : Int) : Except String (List Video × Option Video × List Event) :=
  match next_transform mode target_id queue with
  | .error e => .error e
  | .ok (none, q2) => .ok (q2, none, [])
  | .ok (some v, q2) =>
    .ok (q2, some v,
      [{ timestamp := now, action := .Watched, video_id := v.id,
         time_in_queue_sec := some (now - v.added_at) }])

/-- `commands::remove` after the store call (`commands.rs:134`): when a video
was removed, a `Skipped` event with `time_in_queue_sec = None` is logged. -/
def remove_cmd (target_id : String) (queue : List Video) (now : Int) :
    Except String (List Video × Option Video × List Event) :=
  match remove_transform target_id queue with
  | .error e => .error e
  | .ok (none, q2) => .ok (q2, none, [])
  | .ok (some v, q2) =>
    .ok (q2, some v,
      [{ timestamp := now, action := .Skipped, video_id := v.id,
         time_in_queue_sec := none }])

/-! ## store.rs: the event journal -/

/-- One journal segment file: its extension and its physical lines.  Each line
is a `JsonDoc Event`: either a line `serde_json::from_str::<Event>` parses, or
a corrupt line it rejects. -/
structure Segment where
  ext : String
  lines : List (JsonDoc Event)

/-- ASCII lowering of one character, as a code point. -/
def ascii_lower_nat (c : Char) : Nat :=
  if 65 ≤ c.toNat && c.toNat ≤ 90 then c.toNat + 32 else c.toNat

/-- `path.extension().eq_ignore_ascii_case("jsonl")` (`store.rs:125`):
ASCII-case-insensitive comparison of the extension with `jsonl`. -/
def ext_is_jsonl (ext : String) : Bool :=
  ext.data.map ascii_lower_nat == "jsonl".data.map ascii_lower_nat

/-- Parsing one journal line (`store.rs:131`): corrupt lines yield nothing. -/
def parse_line : JsonDoc Event → Option Event
  | .parsable e => some e
  | .garbage _ => none

/-- Boolean comparator used by the final sort (`store.rs:140`),
`a.timestamp.cmp(&b.timestamp)` as a `≤` test. -/
def event_le (a b : Event) : Bool :=
  a.timestamp ≤ b.timestamp

/-- The enumeration loop of `store::stream_history` (`store.rs:118`): every
`.jsonl` segment is read, each line parsed independently, and parse failures
are silently discarded. -/
def collect_events (entries : List Segment) : List Event :=
  entries.foldl
    (fun acc seg =>
      if ext_is_jsonl seg.ext then acc ++ seg.lines.filterMap parse_line
      else acc)
    []

/-- `store::stream_history` (`store.rs:115`): a missing directory yields no
events; otherwise the events collected from all `.jsonl` segments are sorted
ascending by timestamp (`sort_by` is a stable sort, modelled by
`List.mergeSort`). -/
def stream_history (dir : Option (List Segment)) : List Event :=
  let events : List Event :=
    match dir with
    | none => []
    | some entries => collect_events entries
  events.mergeSort event_le

/-! ## store.rs: the metadata cache -/

/-- `store::load_metadata` (`store.rs:148`): missing file or invalid JSON is an
empty map. -/
def load_metadata : Option (JsonDoc MetaMap) → MetaMap
  | some (.parsable m) => m
  | some (.garbage _) => MetaMap.empty
  | none => MetaMap.empty

/-! ## commands.rs: fetch — tombstones and the upsert merge -/

/-- The tombstone record built in `commands.rs:600`: empty descriptive fields,
`fetched_at` = now, `unavailable = true`. -/
def tombstone (id : String) (now : Int) : VideoMeta :=
  { id := id, title := "", channel := "", channel_id := "", duration := "",
    duration_seconds := 0, published_at := now, category_id := "", tags := [],
    fetched_at := now, unavailable := true }

/-- The scope filter of `commands::fetch` (`commands.rs:556`): for a
scope-based (non-targeted) fetch, keep an id when it has no metadata yet, or
when `--force` is passed; tombstones are skipped unless forced. -/
def retain_scope_ids (metadata : MetaMap) (force : Bool) (ids : List String) :
    List String :=
  ids.filter (fun id =>
    match metadata id with
    | none => true
    | some m =>
      if m.unavailable && force then true
      else if m.unavailable then false
      else if force then true
      else false)

/-- The merge step of `commands::fetch` (`commands.rs:584`): compute the ids
the API returned nothing for, insert every fetched record into the map keyed
by its id, then insert a tombstone for every missing id. -/
def merge_fetched_metadata (metadata : MetaMap) (ids_to_fetch : List String)
    (fetched : List VideoMeta) (now : Int) : MetaMap :=
  let fetched_ids := fetched.map (fun m => m.id)
  let missing_ids := ids_to_fetch.filter (fun id => !(fetched_ids.contains id))
  let m1 := fetched.foldl (fun m meta => m.insert meta.id meta) metadata
  missing_ids.foldl (fun m id => m.insert id (tombstone id now)) m1

/-! ## Theorems -/

/-- Helper: when no queued video carries the id, the position lookup fails. -/
theorem remove_by_id_eq_none (id : String) (l : List Video)
    (h : ∀ w ∈ l, w.id ≠ id) : remove_by_id id l = none := by
  induction l with
  | nil => rfl
  | cons v rest ih =>
    simp only [remove_by_id]
    rw [if_neg (h v (by simp))]
    rw [ih (fun x hx => h x (by simp [hx]))]

/-- C1: if the transform passed to `with_queue` returns a domain error, the
on-disk queue file is left untouched (no write occurs, since persistence only
happens after the transform succeeds), the error is returned to the caller,
and the lock trace still ends with a release. -/
theorem with_queue_error_leaves_disk_untouched {T : Type}
    (disk : Option (JsonDoc (List Video)))
    (f : List Video → Except String (List Video × T)) (e : String)
    (h : f (load_queue disk) = .error e) :
    (with_queue disk f).1 = disk ∧
    (with_queue disk f).2.1 = .error e ∧
    (with_queue disk f).2.2 = [.acquire_exclusive, .release] := by
  simp [with_queue, h]

/-- Witness for C1: a transform that fails with a not-found error leaves the
concrete prior snapshot in place and releases the lock. -/
theorem with_queue_error_leaves_disk_untouched_witness :
    (with_queue (some (.parsable [{ id := "aaaaaaaaaaa", url := "u", added_at := 0 }]))
        (fun _ => (.error "target not found" : Except String (List Video × Unit)))).1
      = some (.parsable [{ id := "aaaaaaaaaaa", url := "u", added_at := 0 }]) ∧
    (with_queue (some (.parsable [{ id := "aaaaaaaaaaa", url := "u", added_at := 0 }]))
        (fun _ => (.error "target not found" : Except String (List Video × Unit)))).2.1
      = .error "target not found" ∧
    (with_queue (some (.parsable [{ id := "aaaaaaaaaaa", url := "u", added_at := 0 }]))
        (fun _ => (.error "target not found" : Except String (List Video × Unit)))).2.2
      = [.acquire_exclusive, .release] :=
  with_queue_error_leaves_disk_untouched
    (some (.parsable [{ id := "aaaaaaaaaaa", url := "u", added_at := 0 }]))
    (fun _ => (.error "target not found" : Except String (List Video × Unit)))
    "target not found" rfl

/-- C2: mode-based selection removes from the front under `Mode::Queue` (FIFO)
and from the back under `Mode::Stack` (LIFO); inserting A, B, C in order and
then repeatedly selecting next yields A, B, C under FIFO and C, B, A under
LIFO. -/
theorem mode_selection_fifo_lifo :
    (∀ (v : Video) (rest : List Video),
        next_transform .Queue none (v :: rest) = .ok (some v, rest)) ∧
    (∀ (v : Video) (rest : List Video),
        next_transform .Stack none (v :: rest)
          = .ok (some ((v :: rest).getLast (List.cons_ne_nil v rest)),
                 (v :: rest).dropLast)) ∧
    ((add_cmd "ccccccccccc" "uc" 3
        (add_cmd "bbbbbbbbbbb" "ub" 2
          (add_cmd "aaaaaaaaaaa" "ua" 1 []).1).1).1
      = [{ id := "aaaaaaaaaaa", url := "ua", added_at := 1 },
         { id := "bbbbbbbbbbb", url := "ub", added_at := 2 },
         { id := "ccccccccccc", url := "uc", added_at := 3 }]) ∧
    (next_transform .Queue none
        [{ id := "aaaaaaaaaaa", url := "ua", added_at := 1 },
         { id := "bbbbbbbbbbb", url := "ub", added_at := 2 },
         { id := "ccccccccccc", url := "uc", added_at := 3 }]
      = .ok (some { id := "aaaaaaaaaaa", url := "ua", added_at := 1 },
             [{ id := "bbbbbbbbbbb", url := "ub", added_at := 2 },
              { id := "ccccccccccc", url := "uc", added_at := 3 }]) ∧
     next_transform .Queue none
        [{ id := "bbbbbbbbbbb", url := "ub", added_at := 2 },
         { id := "ccccccccccc", url := "uc", added_at := 3 }]
      = .ok (some { id := "bbbbbbbbbbb", url := "ub", added_at := 2 },
             [{ id := "ccccccccccc", url := "uc", added_at := 3 }]) ∧
     next_transform .Queue none
        [{ id := "ccccccccccc", url := "uc", added_at := 3 }]
      = .ok (some { id := "ccccccccccc", url := "uc", added_at := 3 }, [])) ∧
    (next_transform .Stack none
        [{ id := "aaaaaaaaaaa", url := "ua", added_at := 1 },
         { id := "bbbbbbbbbbb", url := "ub", added_at := 2 },
         { id := "ccccccccccc", url := "uc", added_at := 3 }]
      = .ok (some { id := "ccccccccccc", url := "uc", added_at := 3 },
             [{ id := "aaaaaaaaaaa", url := "ua", added_at := 1 },
              { id := "bbbbbbbbbbb", url := "ub", added_at := 2 }]) ∧
     next_transform .Stack none
        [{ id := "aaaaaaaaaaa", url := "ua", added_at := 1 },
         { id := "bbbbbbbbbbb", url := "ub", added_at := 2 }]
      = .ok (some { id := "bbbbbbbbbbb", url := "ub", added_at := 2 },
             [{ id := "aaaaaaaaaaa", url := "ua", added_at := 1 }]) ∧
     next_transform .Stack none
        [{ id := "aaaaaaaaaaa", url := "ua", added_at := 1 }]
      = .ok (some { id := "aaaaaaaaaaa", url := "ua", added_at := 1 }, [])) := by
  exact ⟨fun v rest => rfl, fun v rest => rfl, rfl, ⟨rfl, rfl, rfl⟩,
         ⟨rfl, rfl, rfl⟩⟩

/-- Witness for C2: FIFO selection on a concrete singleton queue returns its
only element. -/
theorem mode_selection_fifo_lifo_witness :
    next_transform .Queue none [{ id := "aaaaaaaaaaa", url := "u",
                                  added_at := 0 }]
      = .ok (some { id := "aaaaaaaaaaa", url := "u", added_at := 0 }, []) :=
  mode_selection_fifo_lifo.1 { id := "aaaaaaaaaaa", url := "u", added_at := 0 }
    []

/-- C3 counterexample: `save_queue` does not perform a temp-file-then-rename
atomic replace — its write trace is a single direct `fs::write` of the final
path, so it does not have the atomic-replace shape at the concrete input
(path `queue.json`, empty queue). -/
theorem save_queue_no_atomic_replace_counterexample :
    ¬ IsAtomicReplace (save_queue_ops "queue.json" []) "queue.json" := by
  rintro ⟨tmp, contents, hne, heq⟩
  simp [save_queue_ops] at heq

/-- C3 amended: every `save_queue` write is a single direct in-place overwrite
of the queue file (`fs::write`), never a write-to-temporary-then-rename
atomic replace; isolation for readers is provided by the advisory lock, not
by atomic replacement, so a reader not holding the lock is not protected. -/
theorem save_queue_writes_in_place (path : String) (queue : List Video) :
    save_queue_ops path queue = [.write_file path (.parsable queue)] ∧
    ¬ IsAtomicReplace (save_queue_ops path queue) path := by
  refine ⟨rfl, ?_⟩
  rintro ⟨tmp, contents, hne, heq⟩
  simp [save_queue_ops] at heq

/-- Witness for C3 amended: the concrete write trace for an empty queue is the
single in-place write. -/
theorem save_queue_writes_in_place_witness :
    save_queue_ops "queue.json" [] = [.write_file "queue.json" (.parsable [])] ∧
    ¬ IsAtomicReplace (save_queue_ops "queue.json" []) "queue.json" :=
  save_queue_writes_in_place "queue.json" []

/-- C6 counterexample: on an empty queue, a specific-identifier removal does
not surface a not-found domain error — both `next` with a target and `remove`
short-circuit to `Ok(None)` (printed as "Queue is empty.") before the id is
looked up. -/
theorem empty_queue_absent_id_no_error_counterexample :
    next_transform .Queue (some "aaaaaaaaaaa") [] = .ok (none, []) ∧
    remove_transform "aaaaaaaaaaa" [] = .ok (none, []) ∧
    (.ok (none, []) : Except String (Option Video × List Video))
      ≠ .error (not_found_error "aaaaaaaaaaa") := by
  refine ⟨rfl, rfl, ?_⟩
  intro h
  exact Except.noConfusion h

/-- C6 amended: for every non-empty queue and every id absent from it, a
specific-identifier removal (`next` with a target, or `remove`) returns the
recoverable not-found domain error — never a panic; on an empty queue both
operations instead return successfully with no video (reported as an empty
queue, not as not-found). -/
theorem absent_id_is_not_found_error (mode : Mode) (id : String)
    (v : Video) (rest : List Video)
    (h : ∀ w ∈ v :: rest, w.id ≠ id) :
    next_transform mode (some id) (v :: rest) = .error (not_found_error id) ∧
    remove_transform id (v :: rest) = .error (not_found_error id) := by
  have hrem := remove_by_id_eq_none id (v :: rest) h
  constructor
  · simp [next_transform, hrem]
  · simp [remove_transform, hrem]

/-- Witness for C6 amended: a singleton queue and an absent id produce the
not-found error for both operations. -/
theorem absent_id_is_not_found_error_witness :
    next_transform .Queue (some "xxxxxxxxxxx")
        [{ id := "aaaaaaaaaaa", url := "u", added_at := 0 }]
      = .error (not_found_error "xxxxxxxxxxx") ∧
    remove_transform "xxxxxxxxxxx"
        [{ id := "aaaaaaaaaaa", url := "u", added_at := 0 }]
      = .error (not_found_error "xxxxxxxxxxx") :=
  absent_id_is_not_found_error .Queue "xxxxxxxxxxx"
    { id := "aaaaaaaaaaa", url := "u", added_at := 0 } [] (by decide)

/-- C8: reads against a missing or unparsable queue file, a missing journal
directory, or a missing or unparsable metadata file all return empty results
(empty queue, no events, empty map), never an error. -/
theorem missing_or_corrupt_reads_empty :
    load_queue none = [] ∧
    (∀ s, load_queue (some (.garbage s)) = []) ∧
    stream_history none = [] ∧
    (∀ k, load_metadata none k = none) ∧
    (∀ s k, load_metadata (some (.garbage s)) k = none) := by
  refine ⟨rfl, fun s => rfl, ?_, fun k => rfl, fun s k => rfl⟩
  simp [stream_history]

/-- Witness for C8: a concrete corrupt queue snapshot reads as empty and a
missing metadata file has no entry for a concrete key. -/
theorem missing_or_corrupt_reads_empty_witness :
    load_queue (some (.garbage "not json")) = [] ∧
    load_metadata none "aaaaaaaaaaa" = none :=
  ⟨missing_or_corrupt_reads_empty.2.1 "not json",
   missing_or_corrupt_reads_empty.2.2.2.1 "aaaaaaaaaaa"⟩

/-- C5: every consuming removal (`next`) logs a `Watched` event whose
`time_in_queue_sec` is the elapsed time between the item's insertion
(`added_at`, which is the timestamp of its `Queued` event) and the removal;
every `Skipped` event logged by `remove` and every `Queued` event logged by
`add` carries `time_in_queue_sec = None`.  The concrete scenario: insert
`abc12345678` at t0 = 100, consume via FIFO at t1 = 250 — one `Queued` event
at 100, one `Watched` event at 250 with `time_in_queue_sec = 150`, and an
empty queue afterward. -/
theorem event_time_in_queue_fields :
    (∀ (mode : Mode) (target : Option String) (queue : List Video) (now : Int)
        (q2 : List Video) (v : Video) (evs : List Event),
        next_cmd mode target queue now = .ok (q2, some v, evs) →
        evs = [{ timestamp := now, action := .Watched, video_id := v.id,
                 time_in_queue_sec := some (now - v.added_at) }]) ∧
    (∀ (tid : String) (queue : List Video) (now : Int)
        (q2 : List Video) (v : Video) (evs : List Event),
        remove_cmd tid queue now = .ok (q2, some v, evs) →
        evs = [{ timestamp := now, action := .Skipped, video_id := v.id,
                 time_in_queue_sec := none }]) ∧
    (∀ (id url : String) (now : Int) (queue : List Video) (e : Event),
        e ∈ (add_cmd id url now queue).2 →
        e.action = .Queued ∧ e.time_in_queue_sec = none) ∧
    (add_cmd "abc12345678" "u" 100 []
      = ([{ id := "abc12345678", url := "u", added_at := 100 }],
         [{ timestamp := 100, action := .Queued, video_id := "abc12345678",
            time_in_queue_sec := none }]) ∧
     next_cmd .Queue none
        [{ id := "abc12345678", url := "u", added_at := 100 }] 250
      = .ok ([], some { id := "abc12345678", url := "u", added_at := 100 },
             [{ timestamp := 250, action := .Watched,
                video_id := "abc12345678", time_in_queue_sec := some 150 }])) := by
  refine ⟨?_, ?_, ?_, rfl, rfl⟩
  · intro mode target queue now q2 v evs h
    rcases hnt : next_transform mode target queue with e | ⟨ov, q3⟩
    · simp [next_cmd, hnt] at h
    · cases ov with
      | none => simp [next_cmd, hnt] at h
      | some w =>
        simp [next_cmd, hnt] at h
        obtain ⟨-, hv, hevs⟩ := h
        subst hv
        exact hevs.symm
  · intro tid queue now q2 v evs h
    rcases hrt : remove_transform tid queue with e | ⟨ov, q3⟩
    · simp [remove_cmd, hrt] at h
    · cases ov with
      | none => simp [remove_cmd, hrt] at h
      | some w =>
        simp [remove_cmd, hrt] at h
        obtain ⟨-, hv, hevs⟩ := h
        subst hv
        exact hevs.symm
  · intro id url now queue e he
    rcases hat : add_transform id url now queue with ⟨q2, b⟩
    cases b <;> simp [add_cmd, hat] at he
    subst he
    exact ⟨rfl, rfl⟩

/-- Witness for C5: the first conjunct applied to the concrete FIFO
consumption at t1 = 250 of the item inserted at t0 = 100. -/
theorem event_time_in_queue_fields_witness :
    [({ timestamp := 250, action := .Watched, video_id := "abc12345678",
        time_in_queue_sec := some 150 } : Event)]
      = [({ timestamp := 250, action := .Watched, video_id := "abc12345678",
            time_in_queue_sec := some (250 - 100) } : Event)] :=
  event_time_in_queue_fields.1 .Queue none
    [{ id := "abc12345678", url := "u", added_at := 100 }] 250
    [] { id := "abc12345678", url := "u", added_at := 100 }
    [{ timestamp := 250, action := .Watched, video_id := "abc12345678",
       time_in_queue_sec := some 150 }] rfl

/-- C7: a tombstone (`unavailable = true`) for id X suppresses X from the ids
kept by a default-mode (non-forced) scope-based fetch, while a forced fetch
keeps X whenever it is in scope. -/
theorem tombstone_scope_suppression (metadata : MetaMap) (x : String)
    (ids : List String) (m : VideoMeta)
    (hx : metadata x = some m) (hun : m.unavailable = true) :
    x ∉ retain_scope_ids metadata false ids ∧
    (x ∈ ids → x ∈ retain_scope_ids metadata true ids) := by
  constructor
  · intro hmem
    rw [retain_scope_ids, List.mem_filter] at hmem
    rw [hx] at hmem
    simp [hun] at hmem
  · intro hin
    rw [retain_scope_ids, List.mem_filter]
    rw [hx]
    simp [hun, hin]

/-- Witness for C7: a cache holding only a tombstone for `xxxxxxxxxxx`
excludes it from a default-mode scope of two ids and includes it when
forced. -/
theorem tombstone_scope_suppression_witness :
    "xxxxxxxxxxx" ∉ retain_scope_ids
        (fun k => if k = "xxxxxxxxxxx" then some (tombstone "xxxxxxxxxxx" 5)
                  else none)
        false ["xxxxxxxxxxx", "bbbbbbbbbbb"] ∧
    ("xxxxxxxxxxx" ∈ (["xxxxxxxxxxx", "bbbbbbbbbbb"] : List String) →
      "xxxxxxxxxxx" ∈ retain_scope_ids
        (fun k => if k = "xxxxxxxxxxx" then some (tombstone "xxxxxxxxxxx" 5)
                  else none)
        true ["xxxxxxxxxxx", "bbbbbbbbbbb"]) :=
  tombstone_scope_suppression
    (fun k => if k = "xxxxxxxxxxx" then some (tombstone "xxxxxxxxxxx" 5)
              else none)
    "xxxxxxxxxxx" ["xxxxxxxxxxx", "bbbbbbbbbbb"]
    (tombstone "xxxxxxxxxxx" 5) (by simp) rfl

/-- C10: adding an id already present in the queue leaves the queue unchanged
and logs no event; and `add` preserves uniqueness of ids in the queue. -/
theorem add_dedup_preserves_unique_ids :
    (∀ (id url : String) (now : Int) (queue : List Video),
        (∃ v ∈ queue, v.id = id) →
        add_cmd id url now queue = (queue, [])) ∧
    (∀ (id url : String) (now : Int) (queue : List Video),
        (queue.map Video.id).Nodup →
        ((add_cmd id url now queue).1.map Video.id).Nodup) := by
  constructor
  · rintro id url now queue ⟨v, hv, hid⟩
    have hany : queue.any (fun v => v.id = id) = true := by
      simp only [List.any_eq_true, decide_eq_true_eq]
      exact ⟨v, hv, hid⟩
    simp [add_cmd, add_transform, hany]
  · intro id url now queue hnd
    by_cases hany : queue.any (fun v => v.id = id) = true
    · simpa [add_cmd, add_transform, hany] using hnd
    · have hfalse : queue.any (fun v => v.id = id) = false := by
        simpa using hany
      have hnotin : ∀ w ∈ queue, w.id ≠ id := by
        intro w hw hwid
        apply hany
        rw [List.any_eq_true]
        exact ⟨w, hw, by simp [hwid]⟩
      simp [add_cmd, add_transform, hfalse, List.nodup_append]
      exact ⟨hnd, hnotin⟩

/-- Witness for C10: re-adding an already-queued id leaves the concrete
singleton queue unchanged with no event, and adding a fresh id to it keeps
the id list duplicate-free. -/
theorem add_dedup_preserves_unique_ids_witness :
    add_cmd "aaaaaaaaaaa" "u2" 9
        [{ id := "aaaaaaaaaaa", url := "u", added_at := 0 }]
      = ([{ id := "aaaaaaaaaaa", url := "u", added_at := 0 }], []) ∧
    ((add_cmd "bbbbbbbbbbb" "u3" 9
        [{ id := "aaaaaaaaaaa", url := "u", added_at := 0 }]).1.map
          Video.id).Nodup :=
  ⟨add_dedup_preserves_unique_ids.1 "aaaaaaaaaaa" "u2" 9
      [{ id := "aaaaaaaaaaa", url := "u", added_at := 0 }]
      ⟨{ id := "aaaaaaaaaaa", url := "u", added_at := 0 }, by simp, rfl⟩,
   add_dedup_preserves_unique_ids.2 "bbbbbbbbbbb" "u3" 9
      [{ id := "aaaaaaaaaaa", url := "u", added_at := 0 }] (by simp)⟩

/-- Helper: pointwise behaviour of `HashMap::insert`. -/
theorem MetaMap.insert_apply (m : MetaMap) (a : String) (v : VideoMeta)
    (k : String) : m.insert a v k = if k = a then some v else m k := rfl

/-- Helper: the fetched-records insertion loop leaves keys that match no
fetched id unchanged. -/
theorem meta_fold_apply_not_mem (l : List VideoMeta) (m : MetaMap) (k : String)
    (hk : ∀ meta ∈ l, meta.id ≠ k) :
    (l.foldl (fun m meta => m.insert meta.id meta) m) k = m k := by
  induction l generalizing m with
  | nil => rfl
  | cons a rest ih =>
    simp only [List.foldl_cons]
    rw [ih _ (fun x hx => hk x (List.mem_cons_of_mem a hx))]
    rw [MetaMap.insert_apply, if_neg (fun he => hk a (List.mem_cons_self a rest) he.symm)]

/-- Helper: a key matching a fetched id ends up mapped to one of the fetched
records carrying that id. -/
theorem meta_fold_apply_mem (l : List VideoMeta) (m : MetaMap) (k : String)
    (hk : k ∈ l.map (fun meta => meta.id)) :
    ∃ meta ∈ l, meta.id = k ∧
      (l.foldl (fun m meta => m.insert meta.id meta) m) k = some meta := by
  induction l generalizing m with
  | nil => simp at hk
  | cons a rest ih =>
    by_cases hr : k ∈ rest.map (fun meta => meta.id)
    · obtain ⟨meta, hmem, hid, heq⟩ := ih (m.insert a.id a) hr
      exact ⟨meta, List.mem_cons_of_mem a hmem, hid, by simpa using heq⟩
    · have hka : a.id = k := by
        simp only [List.map_cons, List.mem_cons] at hk
        rcases hk with hk | hk
        · exact hk.symm
        · exact absurd hk hr
      have hrest : ∀ meta ∈ rest, meta.id ≠ k := by
        intro x hx he
        exact hr (List.mem_map.mpr ⟨x, hx, he⟩)
      refine ⟨a, List.mem_cons_self a rest, hka, ?_⟩
      simp only [List.foldl_cons]
      rw [meta_fold_apply_not_mem rest _ k hrest]
      rw [MetaMap.insert_apply, if_pos hka.symm]

/-- Helper: the tombstone insertion loop leaves keys outside the missing-id
list unchanged. -/
theorem tomb_fold_apply_not_mem (ids : List String) (m : MetaMap) (k : String)
    (now : Int) (hk : k ∉ ids) :
    (ids.foldl (fun m id => m.insert id (tombstone id now)) m) k = m k := by
  induction ids generalizing m with
  | nil => rfl
  | cons a rest ih =>
    simp only [List.foldl_cons]
    rw [ih _ (fun hr => hk (List.mem_cons_of_mem a hr))]
    rw [MetaMap.insert_apply,
        if_neg (fun he => hk (by rw [he]; exact List.mem_cons_self a rest))]

/-- Helper: a key in the missing-id list ends up mapped to its tombstone. -/
theorem tomb_fold_apply_mem (ids : List String) (m : MetaMap) (k : String)
    (now : Int) (hk : k ∈ ids) :
    (ids.foldl (fun m id => m.insert id (tombstone id now)) m) k
      = some (tombstone k now) := by
  induction ids generalizing m with
  | nil => simp at hk
  | cons a rest ih =>
    simp only [List.foldl_cons]
    by_cases hr : k ∈ rest
    · exact ih _ hr
    · have hka : k = a := by
        rcases List.mem_cons.mp hk with h | h
        · exact h
        · exact absurd h hr
      subst hka
      rw [tomb_fold_apply_not_mem rest _ k now hr]
      rw [MetaMap.insert_apply, if_pos rfl]

/-- C9: the fetch merge only grows the metadata cache — every key present
before the merge is still present after it (nothing is deleted); every key
matching a fetched record is unconditionally overwritten by a batch record
with that id (regardless of what was there before, tombstones included); and
every requested id the API did not return is mapped to a fresh tombstone. -/
theorem upsert_merge_monotone_overwrite (metadata : MetaMap)
    (ids_to_fetch : List String) (fetched : List VideoMeta) (now : Int) :
    (∀ k, metadata k ≠ none →
        merge_fetched_metadata metadata ids_to_fetch fetched now k ≠ none) ∧
    (∀ k, k ∈ fetched.map (fun m => m.id) →
        ∃ meta ∈ fetched, meta.id = k ∧
          merge_fetched_metadata metadata ids_to_fetch fetched now k
            = some meta) ∧
    (∀ k, k ∈ ids_to_fetch → k ∉ fetched.map (fun m => m.id) →
        merge_fetched_metadata metadata ids_to_fetch fetched now k
          = some (tombstone k now)) := by
  refine ⟨?_, ?_, ?_⟩
  · intro k hk
    simp only [merge_fetched_metadata]
    by_cases hmiss :
        k ∈ ids_to_fetch.filter
          (fun id => !((fetched.map (fun m => m.id)).contains id))
    · rw [tomb_fold_apply_mem _ _ _ _ hmiss]
      exact Option.noConfusion
    · rw [tomb_fold_apply_not_mem _ _ _ _ hmiss]
      by_cases hf : k ∈ fetched.map (fun m => m.id)
      · obtain ⟨meta, -, -, heq⟩ := meta_fold_apply_mem fetched metadata k hf
        rw [heq]
        exact Option.noConfusion
      · rw [meta_fold_apply_not_mem fetched metadata k
            (fun x hx he => hf (List.mem_map.mpr ⟨x, hx, he⟩))]
        exact hk
  · intro k hkf
    simp only [merge_fetched_metadata]
    obtain ⟨meta, hmem, hid, heq⟩ := meta_fold_apply_mem fetched metadata k hkf
    refine ⟨meta, hmem, hid, ?_⟩
    have hnmiss :
        k ∉ ids_to_fetch.filter
          (fun id => !((fetched.map (fun m => m.id)).contains id)) := by
      intro hm
      rw [List.mem_filter] at hm
      simp at hm
      exact hm.2 meta hmem hid
    rw [tomb_fold_apply_not_mem _ _ _ _ hnmiss]
    exact heq
  · intro k hki hkf
    simp only [merge_fetched_metadata]
    have hmiss :
        k ∈ ids_to_fetch.filter
          (fun id => !((fetched.map (fun m => m.id)).contains id)) := by
      rw [List.mem_filter]
      refine ⟨hki, ?_⟩
      simpa using hkf
    rw [tomb_fold_apply_mem _ _ _ _ hmiss]

/-- Witness for C9: a cache holding a tombstone for an old id, a scope of two
ids of which one is fetched and one is missed — the old key survives, the
fetched record lands under its id, and the missed id gets a tombstone. -/
theorem upsert_merge_monotone_overwrite_witness :
    merge_fetched_metadata
        (fun k => if k = "oldoldoldol" then some (tombstone "oldoldoldol" 1)
                  else none)
        ["aaaaaaaaaaa", "mmmmmmmmmmm"] [tombstone "aaaaaaaaaaa" 3] 7
        "oldoldoldol" ≠ none ∧
    (∃ meta ∈ [tombstone "aaaaaaaaaaa" 3], meta.id = "aaaaaaaaaaa" ∧
      merge_fetched_metadata
        (fun k => if k = "oldoldoldol" then some (tombstone "oldoldoldol" 1)
                  else none)
        ["aaaaaaaaaaa", "mmmmmmmmmmm"] [tombstone "aaaaaaaaaaa" 3] 7
        "aaaaaaaaaaa" = some meta) ∧
    merge_fetched_metadata
        (fun k => if k = "oldoldoldol" then some (tombstone "oldoldoldol" 1)
                  else none)
        ["aaaaaaaaaaa", "mmmmmmmmmmm"] [tombstone "aaaaaaaaaaa" 3] 7
        "mmmmmmmmmmm" = some (tombstone "mmmmmmmmmmm" 7) :=
  ⟨(upsert_merge_monotone_overwrite _ _ _ 7).1 "oldoldoldol" (by simp),
   (upsert_merge_monotone_overwrite _ _ _ 7).2.1 "aaaaaaaaaaa"
     (by simp [tombstone]),
   (upsert_merge_monotone_overwrite _ _ _ 7).2.2 "mmmmmmmmmmm" (by simp)
     (by simp [tombstone])⟩

/-- Helper: the collection loop equals a filter of the `.jsonl` segments
followed by per-segment line parsing. -/
theorem collect_events_foldl (entries : List Segment) (acc : List Event) :
    entries.foldl
        (fun acc seg =>
          if ext_is_jsonl seg.ext then acc ++ seg.lines.filterMap parse_line
          else acc) acc
      = acc ++ (entries.filter (fun s => ext_is_jsonl s.ext)).flatMap
          (fun s => s.lines.filterMap parse_line) := by
  induction entries generalizing acc with
  | nil => simp
  | cons seg rest ih =>
    simp only [List.foldl_cons, List.filter_cons]
    by_cases h : ext_is_jsonl seg.ext = true
    · rw [if_pos h, ih, if_pos h]
      simp [List.append_assoc]
    · rw [if_neg h, ih, if_neg h]

/-- Helper: closed form of `collect_events`. -/
theorem collect_events_eq (entries : List Segment) :
    collect_events entries
      = (entries.filter (fun s => ext_is_jsonl s.ext)).flatMap
          (fun s => s.lines.filterMap parse_line) := by
  rw [collect_events, collect_events_foldl]
  simp

/-- Helper: parsing a list of well-formed lines recovers the events. -/
theorem filterMap_parse_map_parsable (xs : List Event) :
    (xs.map JsonDoc.parsable).filterMap parse_line = xs := by
  induction xs with
  | nil => rfl
  | cons a l ih => simp [List.filterMap_cons, parse_line, ih]

/-- Helper: permuting a list permutes its flatMap. -/
theorem perm_flatMap_congr {α β : Type} {l l2 : List α} (f : α → List β)
    (h : l.Perm l2) : (l.flatMap f).Perm (l2.flatMap f) := by
  induction h with
  | nil => exact .rfl
  | cons x h ih =>
    simp only [List.flatMap_cons]
    exact ih.append_left (f x)
  | swap x y l =>
    simp only [List.flatMap_cons, ← List.append_assoc]
    exact (List.perm_append_comm).append_right _
  | trans h1 h2 ih1 ih2 => exact ih1.trans ih2

/-- C4: reading the full history silently discards unparsable lines and
returns exactly the successfully parsed events sorted ascending by timestamp:
the output is (i) sorted, (ii) a permutation of the events parsed from the
`.jsonl` segments, (iii) invariant as a multiset under segment enumeration
order, and (iv) a journal of N valid events with one line corrupted yields
exactly N − 1 events. -/
theorem stream_history_sorted_skips_corrupt :
    (∀ dir, (stream_history dir).Pairwise
        (fun a b => a.timestamp ≤ b.timestamp)) ∧
    (∀ entries, (stream_history (some entries)).Perm
        (collect_events entries)) ∧
    (∀ entries entries2 : List Segment, entries.Perm entries2 →
        (stream_history (some entries)).Perm
          (stream_history (some entries2))) ∧
    (∀ (es : List Event) (i : Nat) (s : String), i < es.length →
        (stream_history (some [Segment.mk "jsonl"
            ((es.map JsonDoc.parsable).set i (.garbage s))])).length
          = es.length - 1) := by
  refine ⟨?_, ?_, ?_, ?_⟩
  · intro dir
    have h := @List.sorted_mergeSort Event event_le
      (fun a b c hab hbc => by
        simp only [event_le, decide_eq_true_eq] at *
        omega)
      (fun a b => by
        simp only [event_le, Bool.or_eq_true, decide_eq_true_eq]
        omega)
      (match dir with
       | none => []
       | some entries => collect_events entries)
    exact h.imp (fun hab => by
      simpa only [event_le, decide_eq_true_eq] using hab)
  · intro entries
    exact List.mergeSort_perm (collect_events entries) event_le
  · intro e1 e2 h
    have h1 := List.mergeSort_perm (collect_events e1) event_le
    have h2 := List.mergeSort_perm (collect_events e2) event_le
    have hc : (collect_events e1).Perm (collect_events e2) := by
      rw [collect_events_eq, collect_events_eq]
      exact perm_flatMap_congr _ (h.filter _)
    exact (h1.trans hc).trans h2.symm
  · intro es i s hi
    have hp := List.mergeSort_perm
      (collect_events [Segment.mk "jsonl"
        ((es.map JsonDoc.parsable).set i (.garbage s))]) event_le
    show (List.mergeSort
        (collect_events [Segment.mk "jsonl"
          ((es.map JsonDoc.parsable).set i (.garbage s))])
        event_le).length = es.length - 1
    rw [hp.length_eq]
    have hcol : collect_events [Segment.mk "jsonl"
        ((es.map JsonDoc.parsable).set i (.garbage s))]
          = ((es.map JsonDoc.parsable).set i (.garbage s)).filterMap
              parse_line := rfl
    rw [hcol, List.set_eq_take_append_cons_drop,
        if_pos (by simpa using hi), List.filterMap_append,
        ← List.map_take, filterMap_parse_map_parsable]
    simp only [List.filterMap_cons, parse_line]
    rw [← List.map_drop, filterMap_parse_map_parsable]
    simp only [List.length_append, List.length_take, List.length_drop]
    omega

/-- Witness for C4: two concrete one-line segments read in either enumeration
order yield the same multiset of events, and a two-event journal with its
first line corrupted yields exactly one event. -/
theorem stream_history_sorted_skips_corrupt_witness :
    (stream_history (some
        [{ ext := "jsonl",
           lines := [.parsable { timestamp := 5, action := .Queued,
                                 video_id := "aaaaaaaaaaa",
                                 time_in_queue_sec := none }] },
         { ext := "jsonl",
           lines := [.parsable { timestamp := 3, action := .Watched,
                                 video_id := "bbbbbbbbbbb",
                                 time_in_queue_sec := some 1 }] }])).Perm
      (stream_history (some
        [{ ext := "jsonl",
           lines := [.parsable { timestamp := 3, action := .Watched,
                                 video_id := "bbbbbbbbbbb",
                                 time_in_queue_sec := some 1 }] },
         { ext := "jsonl",
           lines := [.parsable { timestamp := 5, action := .Queued,
                                 video_id := "aaaaaaaaaaa",
                                 time_in_queue_sec := none }] }])) ∧
    (stream_history (some [Segment.mk "jsonl"
        ((([{ timestamp := 5, action := .Queued,
              video_id := "aaaaaaaaaaa", time_in_queue_sec := none },
            { timestamp := 3, action := .Watched,
              video_id := "bbbbbbbbbbb", time_in_queue_sec := some 1 }]
            : List Event).map JsonDoc.parsable).set 0
          (.garbage "oops"))])).length = 1 :=
  ⟨stream_history_sorted_skips_corrupt.2.2.1 _ _
    (List.Perm.swap _ _ []),
   stream_history_sorted_skips_corrupt.2.2.2
    [{ timestamp := 5, action := .Queued, video_id := "aaaaaaaaaaa",
       time_in_queue_sec := none },
     { timestamp := 3, action := .Watched, video_id := "bbbbbbbbbbb",
       time_in_queue_sec := some 1 }] 0 "oops" (by decide)⟩

end Ytq
